import Mathlib

/-!
Verification of the procedural-terrain core of the threejs-synthwave-scene
repository: the heightmap sampler `getZFromImageDataPoint`, the vertex
displacement loop, the seam-stitch loop, the boustrophedon wireframe path
loop inside `initScene`, and the per-frame tile update in `updateScene`
(all in `src/functions.js` / `src/index.js`).

Numbers are modelled as rationals (`ℚ`); pixel-channel arrays as total
functions `ℤ → ℚ` (a JavaScript typed array read with an index is a plain
lookup; all claims place the reads in range).
-/

namespace Synthwave

/-- JavaScript `Math.round`: round half towards positive infinity,
`Math.round(q) = ⌊q + 1/2⌋`. -/
def jsRound (q : ℚ) : ℤ := ⌊q + 1/2⌋

/-- The color data of the heightmap image, as produced by
`context.getImageData`: a `width × height` pixel grid whose flat RGBA
channel array is `data` (4 channels per pixel, row-major). -/
structure ImageData where
  width : ℕ
  height : ℕ
  data : ℤ → ℚ

/-- `const displacementScale = 5` in `getZFromImageDataPoint`. -/
def displacementScale : ℚ := 5

/-- `var x = Math.round(u * (mapWidth - 1))` with `mapWidth = cvWidth`. -/
def sampleX (u : ℚ) (cvWidth : ℕ) : ℤ := jsRound (u * ((cvWidth : ℚ) - 1))

/-- `var y = Math.round((1 - v) * (mapHeight - 1))` with `mapHeight = cvHeight`. -/
def sampleY (v : ℚ) (cvHeight : ℕ) : ℤ := jsRound ((1 - v) * ((cvHeight : ℚ) - 1))

/-- `var index = (y * imageData.width + x) * 4`: the flat channel index of
the red channel of the pixel addressed by `(u, v)`. -/
def readChannelIndex (imageData : ImageData) (u v : ℚ) (cvWidth cvHeight : ℕ) : ℤ :=
  (sampleY v cvHeight * imageData.width + sampleX u cvWidth) * 4

/-- `getZFromImageDataPoint(imageData, u, v, cvWidth, cvHeight)` from
`src/functions.js`: reads the red channel at the computed index and returns
`red / 255 * displacementScale`. -/
def getZFromImageDataPoint (imageData : ImageData) (u v : ℚ) (cvWidth cvHeight : ℕ) : ℚ :=
  imageData.data (readChannelIndex imageData u v cvWidth cvHeight) / 255 * displacementScale

section SamplerLemmas

/-- For `q ∈ [0, n]`, `jsRound q ∈ [0, n]`. -/
theorem jsRound_bounds {q : ℚ} {n : ℕ} (h0 : 0 ≤ q) (h1 : q ≤ (n : ℚ)) :
    0 ≤ jsRound q ∧ jsRound q ≤ (n : ℤ) := by
  unfold jsRound
  constructor
  · have : (0 : ℚ) ≤ q + 1/2 := by linarith
    exact Int.le_floor.mpr (by exact_mod_cast this)
  · exact Int.floor_le_iff.mpr (by push_cast; linarith)

/-- For `u ∈ [0,1]` and `cvWidth ≥ 1`, the pixel column `sampleX u cvWidth`
lies in `[0, cvWidth - 1]`. -/
theorem sampleX_bounds {u : ℚ} {cvWidth : ℕ} (hW : 1 ≤ cvWidth)
    (h0 : 0 ≤ u) (h1 : u ≤ 1) :
    0 ≤ sampleX u cvWidth ∧ sampleX u cvWidth ≤ (cvWidth : ℤ) - 1 := by
  have hW1 : (0 : ℚ) ≤ (cvWidth : ℚ) - 1 := by
    have : (1 : ℚ) ≤ (cvWidth : ℚ) := by exact_mod_cast hW
    linarith
  have h0' : 0 ≤ u * ((cvWidth : ℚ) - 1) := mul_nonneg h0 hW1
  have h1' : u * ((cvWidth : ℚ) - 1) ≤ ((cvWidth - 1 : ℕ) : ℚ) := by
    have : u * ((cvWidth : ℚ) - 1) ≤ 1 * ((cvWidth : ℚ) - 1) :=
      mul_le_mul_of_nonneg_right h1 hW1
    have hcast : ((cvWidth - 1 : ℕ) : ℚ) = (cvWidth : ℚ) - 1 := by
      push_cast [Nat.cast_sub hW]; ring
    rw [hcast]; linarith
  have := jsRound_bounds h0' h1'
  refine ⟨this.1, ?_⟩
  have h2 := this.2
  have hcast : ((cvWidth - 1 : ℕ) : ℤ) = (cvWidth : ℤ) - 1 := by
    push_cast [Nat.cast_sub hW]; ring
  rw [hcast] at h2
  exact h2

/-- For `v ∈ [0,1]` and `cvHeight ≥ 1`, the pixel row `sampleY v cvHeight`
lies in `[0, cvHeight - 1]`. -/
theorem sampleY_bounds {v : ℚ} {cvHeight : ℕ} (hH : 1 ≤ cvHeight)
    (h0 : 0 ≤ v) (h1 : v ≤ 1) :
    0 ≤ sampleY v cvHeight ∧ sampleY v cvHeight ≤ (cvHeight : ℤ) - 1 := by
  have h0' : 0 ≤ 1 - v := by linarith
  have h1' : 1 - v ≤ 1 := by linarith
  exact sampleX_bounds hH h0' h1'

/-- `v = 0` addresses pixel row `cvHeight - 1` (the last row). -/
theorem sampleY_zero (cvHeight : ℕ) :
    sampleY 0 cvHeight = (cvHeight : ℤ) - 1 := by
  unfold sampleY jsRound
  have : (1 - (0:ℚ)) * ((cvHeight : ℚ) - 1) + 1/2 = ((cvHeight : ℚ) - 1) + 1/2 := by ring
  rw [this]
  have h2 : ((cvHeight : ℚ) - 1) + 1/2 = ((cvHeight - 1 : ℤ) : ℚ) + 1/2 := by push_cast; ring
  rw [h2, Int.floor_int_add]
  norm_num

/-- `v = 1` addresses pixel row `0` (the first row). -/
theorem sampleY_one (cvHeight : ℕ) :
    sampleY 1 cvHeight = 0 := by
  unfold sampleY jsRound
  norm_num

/-- Under in-range `u, v` the flat channel index the sampler reads is a
valid index of the `4 * width * height`-entry channel array. -/
theorem readChannelIndex_bounds (img : ImageData) (u v : ℚ)
    (hW : 1 ≤ img.width) (hH : 1 ≤ img.height)
    (hu0 : 0 ≤ u) (hu1 : u ≤ 1) (hv0 : 0 ≤ v) (hv1 : v ≤ 1) :
    0 ≤ readChannelIndex img u v img.width img.height ∧
      readChannelIndex img u v img.width img.height < 4 * img.width * img.height := by
  obtain ⟨hx0, hx1⟩ := sampleX_bounds hW hu0 hu1
  obtain ⟨hy0, hy1⟩ := sampleY_bounds hH hv0 hv1
  unfold readChannelIndex
  have hWpos : (0 : ℤ) ≤ (img.width : ℤ) := by positivity
  constructor
  · have : 0 ≤ sampleY v img.height * img.width + sampleX u img.width := by
      have := mul_nonneg hy0 hWpos
      linarith
    linarith
  · have hyW : sampleY v img.height * img.width ≤ ((img.height : ℤ) - 1) * img.width :=
      mul_le_mul_of_nonneg_right hy1 hWpos
    have hsum : sampleY v img.height * img.width + sampleX u img.width
        ≤ (img.height : ℤ) * img.width - 1 := by nlinarith
    nlinarith

end SamplerLemmas

section SamplerClaims

/-- C3: the sampler maps `v` to pixel row `y = round((1 - v) * (height - 1))`;
for every image and every `u ∈ [0,1]`, with `v = 0` the addressed pixel row is
`height - 1` and the channel index read falls inside the last pixel row's
channel range; with `v = 1` the addressed row is `0` and the index falls inside
the first pixel row's channel range. -/
theorem sampler_v_inversion (img : ImageData) (u : ℚ)
    (hW : 1 ≤ img.width) (hH : 1 ≤ img.height) (hu0 : 0 ≤ u) (hu1 : u ≤ 1) :
    (∀ v : ℚ, ∀ cvHeight : ℕ,
        sampleY v cvHeight = jsRound ((1 - v) * ((cvHeight : ℚ) - 1))) ∧
    (sampleY 0 img.height = (img.height : ℤ) - 1 ∧
      ((img.height : ℤ) - 1) * img.width * 4
          ≤ readChannelIndex img u 0 img.width img.height ∧
      readChannelIndex img u 0 img.width img.height
          < (img.height : ℤ) * img.width * 4) ∧
    (sampleY 1 img.height = 0 ∧
      0 ≤ readChannelIndex img u 1 img.width img.height ∧
      readChannelIndex img u 1 img.width img.height < (img.width : ℤ) * 4) := by
  obtain ⟨hx0, hx1⟩ := sampleX_bounds hW hu0 hu1
  refine ⟨fun v cvHeight => rfl, ⟨sampleY_zero img.height, ?_, ?_⟩,
    ⟨sampleY_one img.height, ?_, ?_⟩⟩
  · unfold readChannelIndex
    rw [sampleY_zero]
    nlinarith
  · unfold readChannelIndex
    rw [sampleY_zero]
    nlinarith
  · unfold readChannelIndex
    rw [sampleY_one]
    nlinarith
  · unfold readChannelIndex
    rw [sampleY_one]
    nlinarith

/-- C3 witness. -/
theorem sampler_v_inversion_witness :
    (∀ v : ℚ, ∀ cvHeight : ℕ,
        sampleY v cvHeight = jsRound ((1 - v) * ((cvHeight : ℚ) - 1))) ∧
    (sampleY 0 3 = (3 : ℤ) - 1 ∧
      ((3 : ℤ) - 1) * 2 * 4
          ≤ readChannelIndex ⟨2, 3, fun _ => 0⟩ (1/2) 0 2 3 ∧
      readChannelIndex ⟨2, 3, fun _ => 0⟩ (1/2) 0 2 3 < (3 : ℤ) * 2 * 4) ∧
    (sampleY 1 3 = 0 ∧
      0 ≤ readChannelIndex ⟨2, 3, fun _ => 0⟩ (1/2) 1 2 3 ∧
      readChannelIndex ⟨2, 3, fun _ => 0⟩ (1/2) 1 2 3 < (2 : ℤ) * 4) :=
  sampler_v_inversion ⟨2, 3, fun _ => 0⟩ (1/2) (by decide) (by decide)
    (by norm_num) (by norm_num)

/-- C4: for every image whose in-range channel samples lie in `[0, 255]` and
all `u, v ∈ [0,1]`, the sampler returns `red / 255 * displacementScale` with
`displacementScale = 5`, a value in `[0, displacementScale]`. -/
theorem sampler_range (img : ImageData) (u v : ℚ)
    (hW : 1 ≤ img.width) (hH : 1 ≤ img.height)
    (hdata : ∀ i : ℤ, 0 ≤ i → i < 4 * img.width * img.height →
      0 ≤ img.data i ∧ img.data i ≤ 255)
    (hu0 : 0 ≤ u) (hu1 : u ≤ 1) (hv0 : 0 ≤ v) (hv1 : v ≤ 1) :
    getZFromImageDataPoint img u v img.width img.height
        = img.data (readChannelIndex img u v img.width img.height) / 255 * 5 ∧
    displacementScale = 5 ∧
    0 ≤ getZFromImageDataPoint img u v img.width img.height ∧
    getZFromImageDataPoint img u v img.width img.height ≤ displacementScale := by
  obtain ⟨hi0, hi1⟩ := readChannelIndex_bounds img u v hW hH hu0 hu1 hv0 hv1
  obtain ⟨hr0, hr1⟩ := hdata _ hi0 hi1
  set red := img.data (readChannelIndex img u v img.width img.height) with hred
  unfold getZFromImageDataPoint displacementScale
  refine ⟨rfl, rfl, ?_, ?_⟩
  · positivity
  · rw [div_mul_eq_mul_div, div_le_iff₀ (by norm_num : (0:ℚ) < 255)]
    linarith

/-- C4 witness. -/
theorem sampler_range_witness :
    getZFromImageDataPoint ⟨1, 1, fun _ => 255⟩ 0 0 1 1
        = (fun _ : ℤ => (255 : ℚ)) (readChannelIndex ⟨1, 1, fun _ => 255⟩ 0 0 1 1)
            / 255 * 5 ∧
    displacementScale = 5 ∧
    0 ≤ getZFromImageDataPoint ⟨1, 1, fun _ => 255⟩ 0 0 1 1 ∧
    getZFromImageDataPoint ⟨1, 1, fun _ => 255⟩ 0 0 1 1 ≤ displacementScale :=
  sampler_range ⟨1, 1, fun _ => 255⟩ 0 0 (by decide) (by decide)
    (fun i _ _ => by norm_num) le_rfl (by norm_num) le_rfl (by norm_num)

end SamplerClaims

section MeshBuilder

/-- Texture coordinate `u` of grid column `ix`, per the `THREE.PlaneGeometry`
UV layout the displacement loop reads (`uv.push(ix / gridX, 1 - iy / gridY)`
in row-major vertex order): `u = ix / cellsX`. -/
def planeU (cellsX ix : ℕ) : ℚ := (ix : ℚ) / cellsX

/-- Texture coordinate `v` of grid row `iy`, per the `THREE.PlaneGeometry`
UV layout: `v = 1 - iy / cellsY`. -/
def planeV (cellsY iy : ℕ) : ℚ := 1 - (iy : ℚ) / cellsY

/-- The elevation the displacement loop writes at grid coordinate `(ix, iy)`
(flat vertex index `iy * (cellsX + 1) + ix`):
`getZFromImageDataPoint(hm_imageData, (i == 0 ? vertexU : 1 - vertexU), vertexV,
canvas.width, canvas.height)` — `mirror` is true on the second loop pass. -/
def gridElevation (img : ImageData) (mirror : Bool) (cellsX cellsY : ℕ)
    (cvWidth cvHeight : ℕ) (ix iy : ℕ) : ℚ :=
  getZFromImageDataPoint img
    (if mirror then 1 - planeU cellsX ix else planeU cellsX ix)
    (planeV cellsY iy) cvWidth cvHeight

/-- C5: the mirrored build and the plain build from the same heightmap are
horizontal mirror images in elevation: for every grid coordinate `(ix, iy)`
with `ix ≤ cellsX`, the mirrored grid's elevation at `(ix, iy)` equals the
plain grid's elevation at `(cellsX - ix, iy)`. -/
theorem mirror_elevation (img : ImageData) (cellsX cellsY : ℕ)
    (cvWidth cvHeight : ℕ) (ix iy : ℕ) (hX : 0 < cellsX) (hix : ix ≤ cellsX) :
    gridElevation img true cellsX cellsY cvWidth cvHeight ix iy
      = gridElevation img false cellsX cellsY cvWidth cvHeight (cellsX - ix) iy := by
  unfold gridElevation
  have hu : 1 - planeU cellsX ix = planeU cellsX (cellsX - ix) := by
    unfold planeU
    have hc : ((cellsX - ix : ℕ) : ℚ) = (cellsX : ℚ) - (ix : ℚ) := by
      push_cast [Nat.cast_sub hix]; ring
    rw [hc]
    have hne : (cellsX : ℚ) ≠ 0 := by
      exact_mod_cast Nat.pos_iff_ne_zero.mp hX
    field_simp
  rw [if_pos rfl, if_neg (by simp), hu]

/-- C5 witness. -/
theorem mirror_elevation_witness :
    gridElevation ⟨1, 1, fun _ => 0⟩ true 30 30 1 1 12 7
      = gridElevation ⟨1, 1, fun _ => 0⟩ false 30 30 1 1 (30 - 12) 7 :=
  mirror_elevation ⟨1, 1, fun _ => 0⟩ 30 30 1 1 12 7 (by decide) (by decide)

end MeshBuilder

section SeamStitch

/-- One iteration of the seam-stitch loop at column `index`, acting on the
pair of flat position arrays `(geometryPositionsArray[0], geometryPositionsArray[1])`:
`geometryPositionsArray[1][(bottomOffset + index) * 3 + 2] = geometryPositionsArray[0][index * 3 + 2]`
followed by
`geometryPositionsArray[0][(bottomOffset + index) * 3 + 2] = geometryPositionsArray[1][index * 3 + 2]`.
`bottomOffset` is the loop-invariant value `(terrainWidth + 1) * terrainHeight`
that the body recomputes each iteration. -/
def stitchStep (bottomOffset : ℕ) (st : (ℕ → ℚ) × (ℕ → ℚ)) (index : ℕ) :
    (ℕ → ℚ) × (ℕ → ℚ) :=
  let b1 := Function.update st.2 ((bottomOffset + index) * 3 + 2) (st.1 (index * 3 + 2))
  let a1 := Function.update st.1 ((bottomOffset + index) * 3 + 2) (b1 (index * 3 + 2))
  (a1, b1)

/-- The seam-stitch loop of `initScene`:
`for (let index = 0; index <= terrainWidth; index++) { ... }` run on the two
position arrays, with `cellsX = terrainWidth` and `cellsY = terrainHeight`. -/
def stitch (cellsX cellsY : ℕ) (A B : ℕ → ℚ) : (ℕ → ℚ) × (ℕ → ℚ) :=
  (List.range (cellsX + 1)).foldl (stitchStep ((cellsX + 1) * cellsY)) (A, B)

/-- The same loop body with the two reciprocal copies performed in the
opposite order (`A.bottom := B.top` first, then `B.bottom := A.top`). -/
def stitchStepSwapped (bottomOffset : ℕ) (st : (ℕ → ℚ) × (ℕ → ℚ)) (index : ℕ) :
    (ℕ → ℚ) × (ℕ → ℚ) :=
  let a1 := Function.update st.1 ((bottomOffset + index) * 3 + 2) (st.2 (index * 3 + 2))
  let b1 := Function.update st.2 ((bottomOffset + index) * 3 + 2) (a1 (index * 3 + 2))
  (a1, b1)

/-- The seam-stitch loop with the copies in the opposite order. -/
def stitchSwapped (cellsX cellsY : ℕ) (A B : ℕ → ℚ) : (ℕ → ℚ) × (ℕ → ℚ) :=
  (List.range (cellsX + 1)).foldl (stitchStepSwapped ((cellsX + 1) * cellsY)) (A, B)

/-- Snapshot-based stitched first grid: bottom-row z entries take grid B's
pre-stitch top-row z values, everything else is untouched. -/
def stitchSpecA (bot cellsX : ℕ) (A B : ℕ → ℚ) : ℕ → ℚ := fun j =>
  if j % 3 = 2 ∧ bot ≤ j / 3 ∧ j / 3 < bot + (cellsX + 1)
  then B ((j / 3 - bot) * 3 + 2) else A j

/-- Snapshot-based stitched second grid: bottom-row z entries take grid A's
pre-stitch top-row z values, everything else is untouched. -/
def stitchSpecB (bot cellsX : ℕ) (A B : ℕ → ℚ) : ℕ → ℚ := fun j =>
  if j % 3 = 2 ∧ bot ≤ j / 3 ∧ j / 3 < bot + (cellsX + 1)
  then A ((j / 3 - bot) * 3 + 2) else B j

theorem stitchStep_fst (bot : ℕ) (st : (ℕ → ℚ) × (ℕ → ℚ)) (i : ℕ) :
    (stitchStep bot st i).1
      = Function.update st.1 ((bot + i) * 3 + 2)
          (Function.update st.2 ((bot + i) * 3 + 2) (st.1 (i * 3 + 2)) (i * 3 + 2)) := rfl

theorem stitchStep_snd (bot : ℕ) (st : (ℕ → ℚ) × (ℕ → ℚ)) (i : ℕ) :
    (stitchStep bot st i).2
      = Function.update st.2 ((bot + i) * 3 + 2) (st.1 (i * 3 + 2)) := rfl

theorem stitchStepSwapped_fst (bot : ℕ) (st : (ℕ → ℚ) × (ℕ → ℚ)) (i : ℕ) :
    (stitchStepSwapped bot st i).1
      = Function.update st.1 ((bot + i) * 3 + 2) (st.2 (i * 3 + 2)) := rfl

theorem stitchStepSwapped_snd (bot : ℕ) (st : (ℕ → ℚ) × (ℕ → ℚ)) (i : ℕ) :
    (stitchStepSwapped bot st i).2
      = Function.update st.2 ((bot + i) * 3 + 2)
          (Function.update st.1 ((bot + i) * 3 + 2) (st.2 (i * 3 + 2)) (i * 3 + 2)) := rfl

/-- Characterization of the partial stitch fold: after processing columns
`0, …, k-1` the grids agree with the snapshot description restricted to
those columns. Requires `cellsX + 1 ≤ bot` (true whenever `cellsY ≥ 1`),
which makes the read row (row 0) disjoint from the written row. -/
theorem stitch_fold_spec (bot cellsX : ℕ) (hbot : cellsX + 1 ≤ bot) (A B : ℕ → ℚ) :
    ∀ k, k ≤ cellsX + 1 →
      ((List.range k).foldl (stitchStep bot) (A, B)).1
          = (fun j => if j % 3 = 2 ∧ bot ≤ j / 3 ∧ j / 3 < bot + k
              then B ((j / 3 - bot) * 3 + 2) else A j) ∧
      ((List.range k).foldl (stitchStep bot) (A, B)).2
          = (fun j => if j % 3 = 2 ∧ bot ≤ j / 3 ∧ j / 3 < bot + k
              then A ((j / 3 - bot) * 3 + 2) else B j) := by
  intro k
  induction k with
  | zero =>
      intro _
      simp only [List.range_zero, List.foldl_nil]
      constructor <;> · funext j; rw [if_neg (by omega)]
  | succ k ih =>
      intro hk
      obtain ⟨ih1, ih2⟩ := ih (by omega)
      rw [List.range_succ, List.foldl_append, List.foldl_cons, List.foldl_nil,
        stitchStep_fst, stitchStep_snd, ih1, ih2]
      have hread : (k * 3 + 2 = (bot + k) * 3 + 2) = False := by
        simp only [eq_iff_iff, iff_false]; omega
      have hcondk : (k * 3 + 2) % 3 = 2 ∧ bot ≤ (k * 3 + 2) / 3 ∧
          (k * 3 + 2) / 3 < bot + k ↔ False := by
        simp only [iff_false]; omega
      constructor
      · funext j
        rw [Function.update_apply, Function.update_apply]
        simp only [hread, if_false]
        rw [if_neg (by omega : ¬((k * 3 + 2) % 3 = 2 ∧ bot ≤ (k * 3 + 2) / 3 ∧
          (k * 3 + 2) / 3 < bot + k))]
        by_cases hj : j = (bot + k) * 3 + 2
        · subst hj
          rw [if_pos rfl, if_pos (by omega)]
          have : (((bot + k) * 3 + 2) / 3 - bot) * 3 + 2 = k * 3 + 2 := by omega
          rw [this]
        · rw [if_neg hj]
          by_cases hc : j % 3 = 2 ∧ bot ≤ j / 3 ∧ j / 3 < bot + k
          · rw [if_pos hc, if_pos (by omega)]
          · rw [if_neg hc, if_neg (by omega)]
      · funext j
        simp only [Function.update_apply]
        rw [if_neg (by omega : ¬((k * 3 + 2) % 3 = 2 ∧ bot ≤ (k * 3 + 2) / 3 ∧
          (k * 3 + 2) / 3 < bot + k))]
        by_cases hj : j = (bot + k) * 3 + 2
        · subst hj
          rw [if_pos rfl, if_pos (by omega)]
          have : (((bot + k) * 3 + 2) / 3 - bot) * 3 + 2 = k * 3 + 2 := by omega
          rw [this]
        · rw [if_neg hj]
          by_cases hc : j % 3 = 2 ∧ bot ≤ j / 3 ∧ j / 3 < bot + k
          · rw [if_pos hc, if_pos (by omega)]
          · rw [if_neg hc, if_neg (by omega)]

/-- The swapped-order fold has the same snapshot characterization. -/
theorem stitch_fold_spec_swapped (bot cellsX : ℕ) (hbot : cellsX + 1 ≤ bot)
    (A B : ℕ → ℚ) :
    ∀ k, k ≤ cellsX + 1 →
      ((List.range k).foldl (stitchStepSwapped bot) (A, B)).1
          = (fun j => if j % 3 = 2 ∧ bot ≤ j / 3 ∧ j / 3 < bot + k
              then B ((j / 3 - bot) * 3 + 2) else A j) ∧
      ((List.range k).foldl (stitchStepSwapped bot) (A, B)).2
          = (fun j => if j % 3 = 2 ∧ bot ≤ j / 3 ∧ j / 3 < bot + k
              then A ((j / 3 - bot) * 3 + 2) else B j) := by
  intro k
  induction k with
  | zero =>
      intro _
      simp only [List.range_zero, List.foldl_nil]
      constructor <;> · funext j; rw [if_neg (by omega)]
  | succ k ih =>
      intro hk
      obtain ⟨ih1, ih2⟩ := ih (by omega)
      rw [List.range_succ, List.foldl_append, List.foldl_cons, List.foldl_nil,
        stitchStepSwapped_fst, stitchStepSwapped_snd, ih1, ih2]
      have hread : (k * 3 + 2 = (bot + k) * 3 + 2) = False := by
        simp only [eq_iff_iff, iff_false]; omega
      constructor
      · funext j
        simp only [Function.update_apply]
        rw [if_neg (by omega : ¬((k * 3 + 2) % 3 = 2 ∧ bot ≤ (k * 3 + 2) / 3 ∧
          (k * 3 + 2) / 3 < bot + k))]
        by_cases hj : j = (bot + k) * 3 + 2
        · subst hj
          rw [if_pos rfl, if_pos (by omega)]
          have : (((bot + k) * 3 + 2) / 3 - bot) * 3 + 2 = k * 3 + 2 := by omega
          rw [this]
        · rw [if_neg hj]
          by_cases hc : j % 3 = 2 ∧ bot ≤ j / 3 ∧ j / 3 < bot + k
          · rw [if_pos hc, if_pos (by omega)]
          · rw [if_neg hc, if_neg (by omega)]
      · funext j
        rw [Function.update_apply, Function.update_apply]
        simp only [hread, if_false]
        rw [if_neg (by omega : ¬((k * 3 + 2) % 3 = 2 ∧ bot ≤ (k * 3 + 2) / 3 ∧
          (k * 3 + 2) / 3 < bot + k))]
        by_cases hj : j = (bot + k) * 3 + 2
        · subst hj
          rw [if_pos rfl, if_pos (by omega)]
          have : (((bot + k) * 3 + 2) / 3 - bot) * 3 + 2 = k * 3 + 2 := by omega
          rw [this]
        · rw [if_neg hj]
          by_cases hc : j % 3 = 2 ∧ bot ≤ j / 3 ∧ j / 3 < bot + k
          · rw [if_pos hc, if_pos (by omega)]
          · rw [if_neg hc, if_neg (by omega)]

/-- Entries that are not bottom-row z entries are never written by the fold. -/
theorem stitch_fold_frame (bot : ℕ) (A B : ℕ → ℚ) :
    ∀ k, ∀ j, (∀ i, i < k → j ≠ (bot + i) * 3 + 2) →
      ((List.range k).foldl (stitchStep bot) (A, B)).1 j = A j ∧
      ((List.range k).foldl (stitchStep bot) (A, B)).2 j = B j := by
  intro k
  induction k with
  | zero =>
      intro j _
      simp only [List.range_zero, List.foldl_nil]
      exact ⟨trivial, trivial⟩
  | succ k ih =>
      intro j hj
      obtain ⟨ih1, ih2⟩ := ih j (fun i hi => hj i (by omega))
      rw [List.range_succ, List.foldl_append, List.foldl_cons, List.foldl_nil,
        stitchStep_fst, stitchStep_snd]
      have hne : j ≠ (bot + k) * 3 + 2 := hj k (by omega)
      constructor
      · rw [Function.update_apply, if_neg hne]; exact ih1
      · rw [Function.update_apply, if_neg hne]; exact ih2

/-- C1: after the seam-stitch loop runs, for every boundary column `i ≤ cellsX`,
grid A's bottom-row z equals grid B's pre-stitch top-row z at column `i`, and
grid B's bottom-row z equals grid A's pre-stitch top-row z at column `i`
(`A`, `B` are the pre-stitch snapshots, since `stitch` takes them as inputs). -/
theorem stitch_boundary (cellsX cellsY : ℕ) (hY : 1 ≤ cellsY) (A B : ℕ → ℚ)
    (i : ℕ) (hi : i ≤ cellsX) :
    (stitch cellsX cellsY A B).1 (((cellsX + 1) * cellsY + i) * 3 + 2) = B (i * 3 + 2) ∧
    (stitch cellsX cellsY A B).2 (((cellsX + 1) * cellsY + i) * 3 + 2) = A (i * 3 + 2) := by
  have hbot : cellsX + 1 ≤ (cellsX + 1) * cellsY := Nat.le_mul_of_pos_right _ hY
  obtain ⟨h1, h2⟩ := stitch_fold_spec ((cellsX + 1) * cellsY) cellsX hbot A B
    (cellsX + 1) le_rfl
  unfold stitch
  simp only [h1, h2]
  constructor
  · rw [if_pos (by omega)]
    congr 1
    omega
  · rw [if_pos (by omega)]
    congr 1
    omega

/-- C1 witness. -/
theorem stitch_boundary_witness :
    (stitch 2 1 (fun j => j) (fun j => j + 100)).1 ((3 * 1 + 1) * 3 + 2)
        = (fun j : ℕ => (j : ℚ) + 100) (1 * 3 + 2) ∧
    (stitch 2 1 (fun j => j) (fun j => j + 100)).2 ((3 * 1 + 1) * 3 + 2)
        = (fun j : ℕ => (j : ℚ)) (1 * 3 + 2) :=
  stitch_boundary 2 1 (by decide) (fun j => j) (fun j => j + 100) 1 (by decide)

/-- C8: for `cellsY ≥ 1` the two reciprocal seam copies commute — running the
loop with the copies in either order yields the same grids, and both equal the
snapshot-based description (bottom rows overwritten from the other grid's
pre-stitch top row, all else unchanged). -/
theorem stitch_order_independent (cellsX cellsY : ℕ) (hY : 1 ≤ cellsY)
    (A B : ℕ → ℚ) :
    stitchSwapped cellsX cellsY A B = stitch cellsX cellsY A B ∧
    (stitch cellsX cellsY A B).1 = stitchSpecA ((cellsX + 1) * cellsY) cellsX A B ∧
    (stitch cellsX cellsY A B).2 = stitchSpecB ((cellsX + 1) * cellsY) cellsX A B := by
  have hbot : cellsX + 1 ≤ (cellsX + 1) * cellsY := Nat.le_mul_of_pos_right _ hY
  obtain ⟨h1, h2⟩ := stitch_fold_spec ((cellsX + 1) * cellsY) cellsX hbot A B
    (cellsX + 1) le_rfl
  obtain ⟨g1, g2⟩ := stitch_fold_spec_swapped ((cellsX + 1) * cellsY) cellsX hbot A B
    (cellsX + 1) le_rfl
  refine ⟨?_, h1.trans rfl, h2.trans rfl⟩
  unfold stitch stitchSwapped
  exact Prod.ext_iff.mpr ⟨g1.trans h1.symm, g2.trans h2.symm⟩

/-- C8 witness. -/
theorem stitch_order_independent_witness :
    stitchSwapped 1 1 (fun j => j) (fun j => 2 * j)
        = stitch 1 1 (fun j => j) (fun j => 2 * j) ∧
    (stitch 1 1 (fun j => j) (fun j => 2 * j)).1
        = stitchSpecA ((1 + 1) * 1) 1 (fun j => j) (fun j => 2 * j) ∧
    (stitch 1 1 (fun j => j) (fun j => 2 * j)).2
        = stitchSpecB ((1 + 1) * 1) 1 (fun j => j) (fun j => 2 * j) :=
  stitch_order_independent 1 1 (by decide) (fun j => j) (fun j => 2 * j)

/-- C9: the seam-stitch loop only writes the z entries of the bottom-row
vertices (flat indices `(bottomOffset + i) * 3 + 2`, `i ≤ cellsX`); every
other entry of both position arrays is unchanged. -/
theorem stitch_writes_only_bottom_z (cellsX cellsY : ℕ) (A B : ℕ → ℚ) (j : ℕ)
    (hj : ∀ i, i ≤ cellsX → j ≠ ((cellsX + 1) * cellsY + i) * 3 + 2) :
    (stitch cellsX cellsY A B).1 j = A j ∧ (stitch cellsX cellsY A B).2 j = B j := by
  unfold stitch
  exact stitch_fold_frame ((cellsX + 1) * cellsY) A B (cellsX + 1) j
    (fun i hi => hj i (by omega))

/-- C9 witness: index 7 is the y component of a bottom-row vertex of a
`2 × 1` grid, hence untouched. -/
theorem stitch_writes_only_bottom_z_witness :
    (stitch 2 1 (fun j => j) (fun j => j + 100)).1 7 = (fun j : ℕ => (j : ℚ)) 7 ∧
    (stitch 2 1 (fun j => j) (fun j => j + 100)).2 7 = (fun j : ℕ => (j : ℚ) + 100) 7 :=
  stitch_writes_only_bottom_z 2 1 (fun j => j) (fun j => j + 100) 7
    (by intro i hi; omega)

end SeamStitch

section Constants

/-- `const terrainWidth = 30` (grid cells along x). -/
def terrainWidth : ℕ := 30

/-- `const terrainHeight = 30` (grid cells along y). -/
def terrainHeight : ℕ := 30

/-- `const numOfMeshSets = 6`. -/
def numOfMeshSets : ℕ := 6

end Constants

section WireframePath

/-- `mappedIndex` computed in the line-position loop:
`rowOffset = row * (terrainWidth + 1)`; the index is `rowOffset + col + point`
for `point < 2`, else `rowOffset + col + point + terrainWidth - 1`. -/
def mappedIndex (cellsX row col point : ℕ) : ℕ :=
  let rowOffset := row * (cellsX + 1)
  if point < 2 then rowOffset + col + point else rowOffset + col + point + cellsX - 1

/-- The innermost `point` loop: points `0,1,2,3` on even rows and `3,2,1,0`
on odd rows, each mapped through `mappedIndex`. -/
def cellPointIndices (cellsX row col : ℕ) : List ℕ :=
  if row % 2 = 0 then (List.range 4).map (mappedIndex cellsX row col)
  else ((List.range 4).reverse).map (mappedIndex cellsX row col)

/-- The `col` loop: columns `0,…,cellsX-1` left-to-right on even rows and
right-to-left on odd rows (boustrophedon). -/
def rowPointIndices (cellsX row : ℕ) : List ℕ :=
  if row % 2 = 0 then (List.range cellsX).flatMap (cellPointIndices cellsX row)
  else ((List.range cellsX).reverse).flatMap (cellPointIndices cellsX row)

/-- The full line-position traversal (`for (let row = 0; row < terrainHeight; …)`):
the sequence of grid-vertex indices visited in order. -/
def pathIndices (cellsX cellsY : ℕ) : List ℕ :=
  (List.range cellsY).flatMap (rowPointIndices cellsX)

/-- `linePositions`: per visited vertex the loop pushes the vertex's x, y and z
from the flat position array (`geometryPositionsArray[i][mappedIndex * 3]`, `+1`, `+2`). -/
def linePositions (pos : ℕ → ℚ) (cellsX cellsY : ℕ) : List ℚ :=
  (pathIndices cellsX cellsY).flatMap
    (fun mi => [pos (mi * 3), pos (mi * 3 + 1), pos (mi * 3 + 2)])

/-- Two vertex indices of a `(cellsX+1)`-wide row-major grid are adjacent when
their row indices (`· / (cellsX+1)`) and column indices (`· % (cellsX+1)`)
each differ by at most 1. -/
def adjacent (cellsX a b : ℕ) : Prop :=
  Nat.dist (a / (cellsX + 1)) (b / (cellsX + 1)) ≤ 1 ∧
  Nat.dist (a % (cellsX + 1)) (b % (cellsX + 1)) ≤ 1

instance adjacentDecidable (cellsX : ℕ) : DecidableRel (adjacent cellsX) :=
  fun _ _ => instDecidableAnd

/-- Boolean form of `adjacent`. -/
def adjacentB (cellsX a b : ℕ) : Bool := decide (adjacent cellsX a b)

/-- A pairwise Boolean check over consecutive elements implies `List.Chain'`. -/
theorem chain'_of_zipAll (cellsX : ℕ) :
    ∀ l : List ℕ, ((l.zip l.tail).all fun p => adjacentB cellsX p.1 p.2) = true →
      List.Chain' (adjacent cellsX) l
  | [], _ => List.chain'_nil
  | [a], _ => List.chain'_singleton a
  | a :: b :: t, h => by
      rw [List.chain'_cons]
      simp only [List.tail, List.zip_cons_cons, List.all_cons, Bool.and_eq_true] at h
      exact ⟨of_decide_eq_true h.1, chain'_of_zipAll cellsX (b :: t) h.2⟩

set_option maxRecDepth 10000 in
/-- C2: at the program's grid resolution (`terrainWidth = terrainHeight = 30`),
every two consecutive points of the wireframe path map to grid vertices whose
row indices and column indices each differ by at most 1. -/
theorem path_adjacency :
    List.Chain' (adjacent terrainWidth) (pathIndices terrainWidth terrainHeight) :=
  chain'_of_zipAll terrainWidth _ (by decide)

/-- Sum of a constant-valued map. -/
theorem sum_const_map {f : ℕ → ℕ} {c : ℕ} (hf : ∀ a, f a = c) :
    ∀ l : List ℕ, (l.map f).sum = l.length * c := by
  intro l
  induction l with
  | nil => simp
  | cons a t ih =>
      simp only [List.map_cons, List.sum_cons, List.length_cons, hf a, ih]
      ring

theorem cellPointIndices_length (cellsX row col : ℕ) :
    (cellPointIndices cellsX row col).length = 4 := by
  unfold cellPointIndices
  split <;> simp

theorem rowPointIndices_length (cellsX row : ℕ) :
    (rowPointIndices cellsX row).length = cellsX * 4 := by
  unfold rowPointIndices
  split
  · rw [List.length_flatMap]
    simp only [Function.comp_def]
    rw [sum_const_map (cellPointIndices_length cellsX row), List.length_range]
  · rw [List.length_flatMap]
    simp only [Function.comp_def]
    rw [sum_const_map (cellPointIndices_length cellsX row),
      List.length_reverse, List.length_range]

/-- C6: the wireframe path visits exactly `cellsX * cellsY * 4` points, i.e.
the flat coordinate list has `3 * (cellsX * cellsY * 4)` scalars, for any
`cellsX, cellsY > 0`. -/
theorem path_length (pos : ℕ → ℚ) (cellsX cellsY : ℕ)
    (hX : 0 < cellsX) (hY : 0 < cellsY) :
    (pathIndices cellsX cellsY).length = cellsX * cellsY * 4 ∧
    (linePositions pos cellsX cellsY).length = 3 * (cellsX * cellsY * 4) := by
  have hpath : (pathIndices cellsX cellsY).length = cellsX * cellsY * 4 := by
    unfold pathIndices
    rw [List.length_flatMap]
    simp only [Function.comp_def]
    rw [sum_const_map (rowPointIndices_length cellsX), List.length_range]
    ring
  refine ⟨hpath, ?_⟩
  unfold linePositions
  rw [List.length_flatMap]
  simp only [Function.comp_def, List.length_cons, List.length_nil]
  rw [sum_const_map (fun _ => rfl), hpath]
  ring

/-- C6 witness. -/
theorem path_length_witness :
    (pathIndices 2 3).length = 2 * 3 * 4 ∧
    (linePositions (fun j => j) 2 3).length = 3 * (2 * 3 * 4) :=
  path_length (fun j => j) 2 3 (by decide) (by decide)

end WireframePath

section Animation

/-- One `updateScene` step on one tile pair `(mesh z, line z)` with per-frame
advance `d = interval * params.speed`:
`meshGroup[i].position.z += interval * params.speed;`
`lineGroup[i].position.z += interval * params.speed;`
`if (meshGroup[i].position.z >= terrainHeight) { both -= numOfMeshSets * terrainHeight }`.
The wrap test reads the mesh's already-incremented z. -/
def updateTilePair (d : ℚ) (p : ℚ × ℚ) : ℚ × ℚ :=
  let m := p.1 + d
  let l := p.2 + d
  if (terrainHeight : ℚ) ≤ m then
    (m - (numOfMeshSets : ℚ) * (terrainHeight : ℚ),
     l - (numOfMeshSets : ℚ) * (terrainHeight : ℚ))
  else (m, l)

/-- One call of `updateScene` advances every tile pair. -/
def updateScene (d : ℚ) (tiles : List (ℚ × ℚ)) : List (ℚ × ℚ) :=
  tiles.map (updateTilePair d)

/-- The tile pairs as created in `initScene`:
`mesh.position.set(0, -1.5, -terrainHeight * i)` and
`line.position.set(0, -1.5, -terrainHeight * i)` for `i < numOfMeshSets`. -/
def initialTiles : List (ℚ × ℚ) :=
  (List.range numOfMeshSets).map
    (fun i => (-(terrainHeight : ℚ) * i, -(terrainHeight : ℚ) * i))

/-- A single tile's z under the same update, instrumented with a counter for
how many times the wrap branch has executed. -/
def tickCount (d : ℚ) (s : ℚ × ℕ) : ℚ × ℕ :=
  let z := s.1 + d
  if (terrainHeight : ℚ) ≤ z then
    (z - (numOfMeshSets : ℚ) * (terrainHeight : ℚ), s.2 + 1)
  else (z, s.2)

/-- `n` update ticks of a single tile's z. -/
def iterTicks (d : ℚ) : ℕ → ℚ × ℕ → ℚ × ℕ
  | 0, s => s
  | n + 1, s => iterTicks d n (tickCount d s)

/-- The instrumented single-tile update computes the same z as the real
pair update started from equal mesh/line z. -/
theorem tickCount_fst_eq_updateTilePair (d z : ℚ) (c : ℕ) :
    (tickCount d (z, c)).1 = (updateTilePair d (z, z)).1 := by
  simp only [tickCount, updateTilePair]
  split <;> rfl

/-- C10: mesh and wireframe tiles share z at creation, and every `updateScene`
step preserves equality of mesh z and line z in each pair (the same increment
and the same conditional wrap shift are applied to both). -/
theorem mesh_line_z_locked :
    (∀ p ∈ initialTiles, p.1 = p.2) ∧
    ∀ (d : ℚ) (tiles : List (ℚ × ℚ)), (∀ p ∈ tiles, p.1 = p.2) →
      ∀ p ∈ updateScene d tiles, p.1 = p.2 := by
  constructor
  · intro p hp
    unfold initialTiles at hp
    obtain ⟨i, _, rfl⟩ := List.mem_map.mp hp
    rfl
  · intro d tiles h p hp
    obtain ⟨q, hq, rfl⟩ := List.mem_map.mp hp
    have hq2 := h q hq
    simp only [updateTilePair]
    split <;> simp [hq2]

/-- C10 witness: one step from equal z keeps them equal, including across a wrap. -/
theorem mesh_line_z_locked_witness :
    (updateTilePair 1 ((29 : ℚ), 29)).1 = (updateTilePair 1 ((29 : ℚ), 29)).2 :=
  mesh_line_z_locked.2 1 [((29 : ℚ), 29)]
    (by intro p hp; rw [List.mem_singleton.mp hp])
    (updateTilePair 1 ((29 : ℚ), 29)) (by simp [updateScene])

/-- One instrumented tick preserves `z ∈ [-150, 30)` and adds 1 to the
wrap-adjusted position `z + 180 * wraps`. -/
theorem tickCount_inv (s : ℚ × ℕ) (h0 : -150 ≤ s.1) (h1 : s.1 < 30) :
    -150 ≤ (tickCount 1 s).1 ∧ (tickCount 1 s).1 < 30 ∧
    (tickCount 1 s).1 + 180 * ((tickCount 1 s).2 : ℚ)
      = s.1 + 180 * (s.2 : ℚ) + 1 := by
  have hT : (terrainHeight : ℚ) = 30 := by norm_num [terrainHeight]
  have hN : (numOfMeshSets : ℚ) * (terrainHeight : ℚ) = 180 := by
    norm_num [terrainHeight, numOfMeshSets]
  by_cases hc : (terrainHeight : ℚ) ≤ s.1 + 1
  · have he : tickCount 1 s
        = (s.1 + 1 - (numOfMeshSets : ℚ) * (terrainHeight : ℚ), s.2 + 1) := by
      simp only [tickCount, if_pos hc]
    rw [hT] at hc
    rw [he]
    dsimp only
    rw [hN]
    refine ⟨by linarith, by linarith, by push_cast; ring⟩
  · have he : tickCount 1 s = (s.1 + 1, s.2) := by
      simp only [tickCount, if_neg hc]
    rw [hT] at hc
    push_neg at hc
    rw [he]
    dsimp only
    refine ⟨by linarith, by linarith, by push_cast; ring⟩

/-- `n` instrumented ticks keep `z ∈ [-150, 30)` and make
`z + 180 * wraps = z₀ + 180 * wraps₀ + n`. -/
theorem iterTicks_inv :
    ∀ (n : ℕ) (s : ℚ × ℕ), -150 ≤ s.1 → s.1 < 30 →
      -150 ≤ (iterTicks 1 n s).1 ∧ (iterTicks 1 n s).1 < 30 ∧
      (iterTicks 1 n s).1 + 180 * ((iterTicks 1 n s).2 : ℚ)
        = s.1 + 180 * (s.2 : ℚ) + n := by
  intro n
  induction n with
  | zero =>
      intro s h0 h1
      exact ⟨h0, h1, by push_cast [iterTicks]; ring⟩
  | succ n ih =>
      intro s h0 h1
      obtain ⟨t0, t1, t2⟩ := tickCount_inv s h0 h1
      obtain ⟨i0, i1, i2⟩ := ih (tickCount 1 s) t0 t1
      refine ⟨i0, i1, ?_⟩
      have heq : iterTicks 1 (n + 1) s = iterTicks 1 n (tickCount 1 s) := rfl
      rw [heq, i2, t2]
      push_cast
      ring

/-- C7 counterexample: with `speed = 1`, `interval = 1`, the tile starting at
`z = 0` sits at `z = -150` after 30 ticks, and `-150` is NOT within
`[0, terrainHeight)` modulo `numOfMeshSets * terrainHeight`
(its residue is 30), refuting the claim's residue clause. -/
theorem tile_wrap_mod_counterexample :
    (iterTicks 1 30 ((0 : ℚ), 0)).1 = -150 ∧
    ¬ ∃ k : ℤ, 0 ≤ (iterTicks 1 30 ((0 : ℚ), 0)).1
          + (numOfMeshSets : ℚ) * (terrainHeight : ℚ) * (k : ℚ) ∧
        (iterTicks 1 30 ((0 : ℚ), 0)).1
          + (numOfMeshSets : ℚ) * (terrainHeight : ℚ) * (k : ℚ)
          < (terrainHeight : ℚ) := by
  have h : (iterTicks 1 30 ((0 : ℚ), 0)).1 = -150 := by
    norm_num [iterTicks, tickCount, terrainHeight, numOfMeshSets]
  refine ⟨h, ?_⟩
  rintro ⟨k, h1, h2⟩
  rw [h] at h1 h2
  have hN : (numOfMeshSets : ℚ) * (terrainHeight : ℚ) = 180 := by
    norm_num [terrainHeight, numOfMeshSets]
  have hT : (terrainHeight : ℚ) = 30 := by norm_num [terrainHeight]
  rw [hN] at h1 h2
  rw [hT] at h2
  have hk1 : (1 : ℤ) ≤ k := by
    by_contra hk
    push_neg at hk
    have hk0 : k ≤ 0 := by omega
    have hq : (k : ℚ) ≤ 0 := by exact_mod_cast hk0
    nlinarith
  have hq1 : (1 : ℚ) ≤ (k : ℚ) := by exact_mod_cast hk1
  nlinarith

/-- C7 amended: with `speed = 1`, `interval = 1`, after 30 ticks the tile
starting at `z = 0` has wrapped exactly once and equals its start minus
`numOfMeshSets * terrainHeight` plus 30; and every tile's z stays in
`[terrainHeight - numOfMeshSets * terrainHeight, terrainHeight)` with
`z + numOfMeshSets * terrainHeight * wraps = start + t` after `t` ticks
(i.e. z is congruent to `start + t` modulo `numOfMeshSets * terrainHeight`,
not within `[0, terrainHeight)`). -/
theorem tile_wrap_amended :
    ((iterTicks 1 30 ((0 : ℚ), 0)).1
        = 0 - (numOfMeshSets : ℚ) * (terrainHeight : ℚ) + 30 ∧
      (iterTicks 1 30 ((0 : ℚ), 0)).2 = 1) ∧
    (∀ i : ℕ, i < numOfMeshSets → ∀ t : ℕ,
      (terrainHeight : ℚ) - (numOfMeshSets : ℚ) * (terrainHeight : ℚ)
          ≤ (iterTicks 1 t (-(terrainHeight : ℚ) * i, 0)).1 ∧
      (iterTicks 1 t (-(terrainHeight : ℚ) * i, 0)).1 < (terrainHeight : ℚ) ∧
      (iterTicks 1 t (-(terrainHeight : ℚ) * i, 0)).1
          + (numOfMeshSets : ℚ) * (terrainHeight : ℚ)
            * ((iterTicks 1 t (-(terrainHeight : ℚ) * i, 0)).2 : ℚ)
          = -(terrainHeight : ℚ) * i + t) := by
  have hT : (terrainHeight : ℚ) = 30 := by norm_num [terrainHeight]
  have hN : (numOfMeshSets : ℚ) * (terrainHeight : ℚ) = 180 := by
    norm_num [terrainHeight, numOfMeshSets]
  constructor
  · constructor
    · norm_num [iterTicks, tickCount, terrainHeight, numOfMeshSets]
    · norm_num [iterTicks, tickCount, terrainHeight, numOfMeshSets]
  · intro i hi t
    rw [hN, hT]
    have hi5 : (i : ℚ) ≤ 5 := by
      have h5 : i ≤ 5 := by
        have h6 := hi
        simp only [numOfMeshSets] at h6
        omega
      exact_mod_cast h5
    have hi0 : (0 : ℚ) ≤ (i : ℚ) := by positivity
    obtain ⟨a, b, c⟩ := iterTicks_inv t (-(30 : ℚ) * i, 0)
      (by dsimp only; linarith) (by dsimp only; linarith)
    refine ⟨by linarith, by linarith, ?_⟩
    dsimp only at c
    push_cast at c ⊢
    linarith

/-- C7 amended witness. -/
theorem tile_wrap_amended_witness :
    (terrainHeight : ℚ) - (numOfMeshSets : ℚ) * (terrainHeight : ℚ)
        ≤ (iterTicks 1 7 (-(terrainHeight : ℚ) * ((3 : ℕ) : ℚ), 0)).1 ∧
    (iterTicks 1 7 (-(terrainHeight : ℚ) * ((3 : ℕ) : ℚ), 0)).1 < (terrainHeight : ℚ) ∧
    (iterTicks 1 7 (-(terrainHeight : ℚ) * ((3 : ℕ) : ℚ), 0)).1
        + (numOfMeshSets : ℚ) * (terrainHeight : ℚ)
          * ((iterTicks 1 7 (-(terrainHeight : ℚ) * ((3 : ℕ) : ℚ), 0)).2 : ℚ)
        = -(terrainHeight : ℚ) * ((3 : ℕ) : ℚ) + ((7 : ℕ) : ℚ) :=
  tile_wrap_amended.2 3 (by decide) 7

end Animation

end Synthwave
